import Mathlib

/-!
Verification of the content-generation pipeline in `app/post_generator.py`.

The Python functions are shallowly embedded as executable Lean definitions:
Python `str` becomes `String` (a list of characters, matching Python's
code-point semantics for `len` and slicing), Python `int` becomes `Int`
(or `Nat` where the source value is a count), `None`-able values become
`Option`, exceptions become `Except`, and the network / LLM boundary is
passed in as explicit data.  Regex operations from the source are embedded
as equivalent deterministic scanners (Python's `re` engine is deterministic
on the patterns used: each is analysed next to its embedding).  The float
comparison `last_end > max_chars * 0.6` is embedded as the exact rational
comparison `10 * last_end > 6 * max_chars`; for integer operands these
agree under IEEE double arithmetic throughout the int range used.
-/

set_option autoImplicit false

namespace PostGenerator

/-! ### Python string primitives -/

/-- Python whitespace test used by `str.strip` / `str.split` (ASCII part). -/
def pyIsSpace (c : Char) : Bool :=
  c = ' ' ∨ c = '\t' ∨ c = '\n' ∨ c = '\x0d' ∨ c = '\x0b' ∨ c = '\x0c'

/-- Strip characters satisfying `pyIsSpace` from both ends of a char list. -/
def stripList (l : List Char) : List Char :=
  ((l.dropWhile pyIsSpace).reverse.dropWhile pyIsSpace).reverse

/-- Python `s.strip()`. -/
def pyStrip (s : String) : String := ⟨stripList s.data⟩

/-- Python `s.rstrip()`. -/
def pyRstrip (s : String) : String := ⟨(s.data.reverse.dropWhile pyIsSpace).reverse⟩

/-- Python slicing `s[:n]` (for `0 ≤ n`). -/
def pyTake (s : String) (n : Nat) : String := ⟨s.data.take n⟩

/-- Python `s.lower()` (ASCII part). -/
def pyLower (s : String) : String := ⟨s.data.map Char.toLower⟩

/-- Bool-valued prefix test on char lists. -/
def isPrefixB : List Char → List Char → Bool
  | [], _ => true
  | _ :: _, [] => false
  | a :: as, b :: bs => a = b && isPrefixB as bs

/-- Python substring test `needle in hay`. -/
def isSubB (needle : List Char) : List Char → Bool
  | [] => decide (needle = [])
  | c :: t => isPrefixB needle (c :: t) || isSubB needle t

/-- Python `hay in self` on strings. -/
def pyIn (needle hay : String) : Bool := isSubB needle.data hay.data

/-- Non-overlapping left-to-right occurrence count, fuel-driven
(the fuel `hay.length + 1` is exact: each step consumes at least one
character of `hay` when `sub` is non-empty). -/
def countGo (sub : List Char) : Nat → List Char → Nat
  | 0, _ => 0
  | _ + 1, [] => 0
  | f + 1, c :: t =>
    if isPrefixB sub (c :: t) then 1 + countGo sub f ((c :: t).drop sub.length)
    else countGo sub f t

/-- Python `hay.count(sub)` (`str.count`; an empty `sub` counts `len + 1`). -/
def pyCount (hay sub : String) : Nat :=
  if sub.data.isEmpty then hay.data.length + 1
  else countGo sub.data (hay.data.length + 1) hay.data

/-- Removal scanner for `hay.replace(sub, "")`, fuel-driven with exact fuel. -/
def removeGo (sub : List Char) : Nat → List Char → List Char
  | 0, l => l
  | _ + 1, [] => []
  | f + 1, c :: t =>
    if isPrefixB sub (c :: t) then removeGo sub f ((c :: t).drop sub.length)
    else c :: removeGo sub f t

/-- Python `hay.replace(sub, "")` (the only replacement the source performs);
for an empty `sub` Python inserts the empty string everywhere, i.e. is the
identity. -/
def pyRemove (hay sub : String) : String :=
  if sub.data.isEmpty then hay
  else ⟨removeGo sub.data (hay.data.length + 1) hay.data⟩

/-- Python `s.split()` (split on whitespace runs, no empty fields). -/
def splitWsGo : List Char → List Char → List (List Char)
  | [], acc => if acc.isEmpty then [] else [acc.reverse]
  | c :: t, acc =>
    if pyIsSpace c then
      if acc.isEmpty then splitWsGo t [] else acc.reverse :: splitWsGo t []
    else splitWsGo t (c :: acc)

/-- Python `s.split()` on a string. -/
def pySplitWs (s : String) : List String := (splitWsGo s.data []).map (⟨·⟩)

/-! ### `truncate_under` (post_generator.py lines 156-168) -/

/-- The sentence-ending punctuation class `[.!?]` of the regex at line 162. -/
def puncChars : List Char := ['.', '!', '?']

/-- End position (1-based, Python `match.end()`) of the last `[.!?]` match
in `s`; `0` when there is none — the `last_end` loop of lines 163-165. -/
def lastPuncGo (i acc : Nat) : List Char → Nat
  | [] => acc
  | c :: t => lastPuncGo (i + 1) (if c ∈ puncChars then i + 1 else acc) t

def lastPuncEnd (s : String) : Nat := lastPuncGo 0 0 s.data

/-- `truncate_under(text, max_chars)` — lines 156-168.  The float test
`last_end > max_chars * 0.6` is embedded exactly as
`10 * last_end > 6 * max_chars` (see the header note). -/
def truncate_under (text : String) (max_chars : Int) : String :=
  if max_chars ≤ 0 then text
  else if (text.length : Int) ≤ max_chars then text
  else
    let trimmed := pyTake text (max_chars - 1).toNat
    let last_end := lastPuncEnd trimmed
    if 0 < last_end ∧ 6 * max_chars < 10 * (last_end : Int) then
      pyStrip (pyTake trimmed last_end)
    else pyStrip trimmed

/-! ### Document records

One record covers every article/result dict built by the source
(`search_articles`, `fetch_block`, the company tagging at line 594 and the
`relevance_score` tagging at line 548); absent dict keys are `none`. -/

structure Doc where
  title : Option String := none
  url : Option String := none
  description : Option String := none
  published_at : Option String := none
  source : Option String := none
  company_related : Option String := none
  relevance_score : Option String := none
deriving DecidableEq

/-! ### `sanitize_plain` (lines 121, 128-134)

Each `re.sub` of the source is embedded as a left-to-right scanner.  On the
patterns used the Python engine is deterministic: the character classes of
each pattern exclude the closing delimiter, so greedy runs never backtrack
into a successful match, and a failed position advances by one character. -/

def tickChar : Char := Char.ofNat 96

/-- One match of `MD_LINK_RE = \[([^\]]+)\]\((https?://[^)\s]+)\)` at the
head of the input; returns the replacement `\2` (the URL) and the rest. -/
def matchMdLink : List Char → Option (List Char × List Char)
  | '[' :: rest =>
    let label := rest.takeWhile (fun c => c ≠ ']')
    if label.isEmpty then none
    else
      match rest.drop label.length with
      | ']' :: '(' :: rest2 =>
        let schemeLen :=
          if isPrefixB "https://".data rest2 then some 8
          else if isPrefixB "http://".data rest2 then some 7
          else none
        match schemeLen with
        | some n =>
          let rest3 := rest2.drop n
          let run := rest3.takeWhile (fun c => c ≠ ')' ∧ ¬ pyIsSpace c)
          if run.isEmpty then none
          else
            match rest3.drop run.length with
            | ')' :: rest4 => some (rest2.take n ++ run, rest4)
            | _ => none
        | none => none
      | _ => none
  | _ => none

def mdLinkGo : Nat → List Char → List Char
  | 0, l => l
  | _ + 1, [] => []
  | f + 1, c :: t =>
    match matchMdLink (c :: t) with
    | some (repl, rest) => repl ++ mdLinkGo f rest
    | none => c :: mdLinkGo f t

/-- One match of `[*_]{1,3}([^*_`]+)[*_]{1,3}` at the head of the input
(the emphasis-stripping sub at line 131); returns `\1` and the rest.
A run of more than 3 marks at the head admits no match at this position
(every shorter opening leaves a mark as the next character). -/
def matchEmph (l : List Char) : Option (List Char × List Char) :=
  let isMark := fun c => c = '*' ∨ c = '_'
  let open1 := l.takeWhile isMark
  if open1.length = 0 ∨ 3 < open1.length then none
  else
    let rest1 := l.drop open1.length
    let mid := rest1.takeWhile (fun c => ¬ isMark c ∧ c ≠ tickChar)
    if mid.isEmpty then none
    else
      let rest2 := rest1.drop mid.length
      let close := rest2.takeWhile isMark
      if close.isEmpty then none
      else some (mid, rest2.drop (min 3 close.length))

def emphGo : Nat → List Char → List Char
  | 0, l => l
  | _ + 1, [] => []
  | f + 1, c :: t =>
    match matchEmph (c :: t) with
    | some (repl, rest) => repl ++ emphGo f rest
    | none => c :: emphGo f t

/-- One match of the backtick sub at line 132 at the head of the input. -/
def matchTick : List Char → Option (List Char × List Char)
  | c :: rest =>
    if c = tickChar then
      let mid := rest.takeWhile (fun d => d ≠ tickChar)
      if mid.isEmpty then none
      else
        match rest.drop mid.length with
        | d :: r2 => if d = tickChar then some (mid, r2) else none
        | _ => none
    else none
  | _ => none

def tickGo : Nat → List Char → List Char
  | 0, l => l
  | _ + 1, [] => []
  | f + 1, c :: t =>
    match matchTick (c :: t) with
    | some (repl, rest) => repl ++ tickGo f rest
    | none => c :: tickGo f t

/-- `re.sub(r"\n{3,}", "\n\n", ·)` at line 133: collapse maximal newline
runs of length at least 3 to two newlines. -/
def nlGo : Nat → List Char → List Char
  | 0, l => l
  | _ + 1, [] => []
  | f + 1, c :: t =>
    if c = '\n' then
      let run := (c :: t).takeWhile (fun d => d = '\n')
      if 3 ≤ run.length then '\n' :: '\n' :: nlGo f ((c :: t).drop run.length)
      else c :: nlGo f t
    else c :: nlGo f t

/-- `sanitize_plain(text)` — lines 128-134. -/
def sanitize_plain (text : String) : String :=
  let t1 := mdLinkGo (text.data.length + 1) text.data
  let t2 := emphGo (t1.length + 1) t1
  let t3 := tickGo (t2.length + 1) t2
  let t4 := nlGo (t3.length + 1) t3
  pyStrip ⟨t4⟩

/-! ### `render_output` (lines 669-719) -/

/-- `[a.get("url") for a in used_sources if a.get("url")]` — line 671. -/
def urlsOf (used_sources : List Doc) : List String :=
  used_sources.filterMap fun a =>
    match a.url with
    | some u => if u = "" then none else some u
    | none => none

/-- The per-format `sources_section` strings of lines 679, 692 and 707-708. -/
def sourcesBlock (fmt : String) (urls : List String) : String :=
  if fmt = "text" then "\n\nSources:\n" ++ String.intercalate "\n" urls
  else if fmt = "markdown" then
    "\n\n**Sources:**\n" ++ String.intercalate "\n" (urls.map fun u => "- " ++ u)
  else if fmt = "html" then
    "<h3>Sources</h3><ul>" ++
      String.join (urls.map fun u => "<li><a href=\"" ++ u ++ "\">" ++ u ++ "</a></li>") ++
      "</ul>"
  else ""

/-- `re.split(r"\n\n+", ·)` at line 704: split at maximal newline runs of
length at least 2. -/
def splitParasGo : Nat → List Char → List Char → List (List Char)
  | 0, acc, l => [acc.reverse ++ l]
  | _ + 1, acc, [] => [acc.reverse]
  | f + 1, acc, c :: t =>
    if c = '\n' then
      let run := (c :: t).takeWhile (fun d => d = '\n')
      if 2 ≤ run.length then acc.reverse :: splitParasGo f [] ((c :: t).drop run.length)
      else splitParasGo f (c :: acc) t
    else splitParasGo f (c :: acc) t

def splitParas (s : String) : List String := (splitParasGo (s.data.length + 1) [] s.data).map (⟨·⟩)

/-- `p.replace(chr(10), '<br/>')` at line 705. -/
def nlToBr (s : String) : String :=
  ⟨s.data.foldr (fun c acc => if c = '\n' then '<' :: 'b' :: 'r' :: '/' :: '>' :: acc else c :: acc) []⟩

/-- The `fmt == "text"` branch of `render_output` — lines 673-688. -/
def render_text (body : String) (urls : List String) (max_chars : Int)
    (include_sources : Bool) (links_in_char_limit : Bool) : String :=
  let body := sanitize_plain body
  let body := urls.foldl (fun b u => pyRemove b u) body
  if include_sources ∧ urls ≠ [] then
    let sources_section := sourcesBlock "text" urls
    if links_in_char_limit then
      let available_for_body : Int := max_chars - sources_section.length
      let body := if available_for_body < (body.length : Int) then
        truncate_under body available_for_body else body
      body ++ sources_section
    else truncate_under body max_chars ++ sources_section
  else truncate_under body max_chars

/-- The `fmt == "markdown"` branch of `render_output` — lines 690-701. -/
def render_markdown (body : String) (urls : List String) (max_chars : Int)
    (include_sources : Bool) (links_in_char_limit : Bool) : String :=
  if include_sources ∧ urls ≠ [] then
    let sources_section := sourcesBlock "markdown" urls
    if links_in_char_limit then
      let available_for_body : Int := max_chars - sources_section.length
      let body := if available_for_body < (body.length : Int) then
        truncate_under body available_for_body else body
      pyRstrip body ++ sources_section
    else pyRstrip (truncate_under body max_chars) ++ sources_section
  else truncate_under body max_chars

/-- The paragraph markup of the `fmt == "html"` branch — lines 704-705. -/
def htmlOfBody (body : String) : String :=
  let parts := ((splitParas (pyStrip body)).map pyStrip).filter (fun p => p ≠ "")
  String.join (parts.map fun p => "<p>" ++ nlToBr p ++ "</p>")

/-- The `fmt == "html"` branch of `render_output` — lines 703-717. -/
def render_html (body : String) (urls : List String) (max_chars : Int)
    (include_sources : Bool) (links_in_char_limit : Bool) : String :=
  let html := htmlOfBody body
  if include_sources ∧ urls ≠ [] then
    let sources_section := sourcesBlock "html" urls
    if links_in_char_limit then
      let available_for_body : Int := max_chars - sources_section.length
      let html := if available_for_body < (html.length : Int) then
        truncate_under html available_for_body else html
      html ++ sources_section
    else truncate_under html max_chars ++ sources_section
  else truncate_under html max_chars

/-- `render_output(body, used_sources, fmt, max_chars, include_sources,
links_in_char_limit)` — lines 669-719, branch for branch (the source
returns from each `if fmt == ...` block; the branch bodies are the
`render_*` functions above). -/
def render_output (body : String) (used_sources : List Doc) (fmt : String) (max_chars : Int)
    (include_sources : Bool) (links_in_char_limit : Bool) : String :=
  let urls := urlsOf used_sources
  if fmt = "text" then render_text body urls max_chars include_sources links_in_char_limit
  else if fmt = "markdown" then render_markdown body urls max_chars include_sources links_in_char_limit
  else if fmt = "html" then render_html body urls max_chars include_sources links_in_char_limit
  else truncate_under (pyStrip body) max_chars

/-! ### URL dedup: `unique_by_url` (lines 145-154) and the aggregator's
normalized-URL dedup (`norm` + `seen`, lines 340-346 and 359-365) -/

/-- Generic seen-set dedup loop: skip items with no key, skip items whose
key was already seen, otherwise keep the item and record its key.  Both
dedup loops of the source have exactly this shape. -/
def dedupByAux (key : Doc → Option String) (seen : List String) : List Doc → List Doc
  | [] => []
  | it :: rest =>
    match key it with
    | none => dedupByAux key seen rest
    | some k =>
      if k ∈ seen then dedupByAux key seen rest
      else it :: dedupByAux key (k :: seen) rest

/-- Key of `unique_by_url`: the raw url; `None` and `""` are both falsy in
`if not u` (line 150). -/
def rawUrlKey (d : Doc) : Option String :=
  match d.url with
  | some u => if u = "" then none else some u
  | none => none

/-- `unique_by_url(items)` — lines 145-154. -/
def unique_by_url (items : List Doc) : List Doc := dedupByAux rawUrlKey [] items

/-- `urllib.parse.urlparse` restricted to what `norm` reads (netloc, path):
optional `scheme:` prefix, then `//netloc` up to `/`, `?` or `#`, then the
path up to `?` or `#`. -/
def urlparseNetlocPath (u : String) : String × String :=
  let l := u.data
  let schemeRun := l.takeWhile fun c => c.isAlphanum ∨ c = '+' ∨ c = '-' ∨ c = '.'
  let rest :=
    match l.drop schemeRun.length with
    | ':' :: r => if schemeRun.isEmpty then l else r
    | _ => l
  if isPrefixB "//".data rest then
    let netloc := (rest.drop 2).takeWhile fun c => c ≠ '/' ∧ c ≠ '?' ∧ c ≠ '#'
    let path := ((rest.drop 2).drop netloc.length).takeWhile fun c => c ≠ '?' ∧ c ≠ '#'
    (⟨netloc⟩, ⟨path⟩)
  else ("", ⟨rest.takeWhile fun c => c ≠ '?' ∧ c ≠ '#'⟩)

/-- `norm(u)` — lines 340-346: lowercase host, strip a leading `www.`,
strip trailing slashes from the path, drop scheme and query. -/
def norm (u : String) : String :=
  let p := urlparseNetlocPath u
  let host := pyLower p.1
  let host := if isPrefixB "www.".data host.data then host.drop 4 else host
  let path : String := ⟨(p.2.data.reverse.dropWhile (fun c => c = '/')).reverse⟩
  host ++ path

/-- Key of the aggregator's dedup (`fetch_block`, lines 359-365): items
with a falsy `href` are skipped, otherwise the normalized URL. -/
def normUrlKey (d : Doc) : Option String :=
  match d.url with
  | some u => if u = "" then none else some (norm u)
  | none => none

/-- The aggregator's normalized-URL dedup step as a list operation. -/
def dedup_norm (items : List Doc) : List Doc := dedupByAux normUrlKey [] items

/-! ### `normalise_types` (lines 196-207) -/

def validTypes : List String := ["news", "blog", "pr"]

/-- The per-entry normalization of the loop body, lines 202-204:
`(t or "").strip().lower()`, then collapse the plural `"blogs"`. -/
def cleanType (t : String) : String :=
  let t := pyLower (pyStrip t)
  if t = "blogs" then "blog" else t

/-- `normalise_types(types)` — lines 196-207 (`if not types` covers both
`None` and the empty list). -/
def normalise_types (types : Option (List String)) : List String :=
  match types with
  | none => ["news"]
  | some ts =>
    if ts.isEmpty then ["news"]
    else
      let out := ts.foldr (fun t acc =>
        if cleanType t ∈ validTypes then cleanType t :: acc else acc) []
      if out.isEmpty then ["news"] else out

/-! ### `extract_json` (lines 170-183) and a model of `json.loads`

The untrusted LLM reply goes through `extract_json`: first the whole text
is handed to `json.loads`; when that fails, a brace-delimited fragment
(`text[text.find("\x7b") : text.rfind("\x7d") + 1]`, when `find`/`rfind`
succeed in that order) is tried; only when that also fails does the empty
object come back.  `extract_json` itself never raises — but a malformed
reply with a salvageable fragment enters the selector with that fragment,
not with the empty object.

`json.loads` is a CPython library call; it is modelled here by a strict
JSON reader over the full JSON grammar the module accepts by default:
objects, arrays, strings (with the standard escapes, `\uXXXX` and
surrogate pairs — a lone surrogate, which Python would keep as an
unpaired code unit, has no `Char` counterpart and decodes as `Char.ofNat`
of an invalid scalar), integers, non-integer numbers (kept unevaluated as
`jnum`, including the `NaN`/`Infinity` extensions), booleans and `null`,
with nothing but JSON whitespace allowed around the document. -/

inductive JVal
  | jnull
  | jbool (b : Bool)
  | jint (n : Int)
  | jnum (s : String)
  | jstr (s : String)
  | jarr (xs : List JVal)
  | jobj (kvs : List (String × JVal))

/-- JSON whitespace (`json.decoder`: space, tab, newline, carriage return). -/
def jsonWs (c : Char) : Bool :=
  c = ' ' ∨ c = '\t' ∨ c = '\n' ∨ c = '\x0d'

def hexDigitVal (c : Char) : Option Nat :=
  if '0' ≤ c ∧ c ≤ '9' then some (c.toNat - '0'.toNat)
  else if 'a' ≤ c ∧ c ≤ 'f' then some (c.toNat - 'a'.toNat + 10)
  else if 'A' ≤ c ∧ c ≤ 'F' then some (c.toNat - 'A'.toNat + 10)
  else none

def hex4 : List Char → Option (Nat × List Char)
  | a :: b :: c :: d :: rest =>
    match hexDigitVal a, hexDigitVal b, hexDigitVal c, hexDigitVal d with
    | some x, some y, some z, some w => some (((x * 16 + y) * 16 + z) * 16 + w, rest)
    | _, _, _, _ => none
  | _ => none

/-- String body reader, entered after the opening quote; returns the
decoded characters and the input after the closing quote.  Surrogate
pairs in `\uXXXX` escapes are combined as CPython's decoder does. -/
def parseJStr : Nat → List Char → Option (List Char × List Char)
  | 0, _ => none
  | _ + 1, [] => none
  | f + 1, c :: t =>
    if c = '"' then some ([], t)
    else if c = '\\' then
      match t with
      | [] => none
      | esc :: t2 =>
        let simple : Option Char :=
          if esc = '"' then some '"'
          else if esc = '\\' then some '\\'
          else if esc = '/' then some '/'
          else if esc = 'b' then some '\x08'
          else if esc = 'f' then some '\x0c'
          else if esc = 'n' then some '\n'
          else if esc = 'r' then some '\x0d'
          else if esc = 't' then some '\t'
          else none
        match simple with
        | some ch => (parseJStr f t2).map fun p => (ch :: p.1, p.2)
        | none =>
          if esc = 'u' then
            match hex4 t2 with
            | some (u1, t3) =>
              if 0xD800 ≤ u1 ∧ u1 ≤ 0xDBFF then
                match t3 with
                | '\\' :: 'u' :: t4 =>
                  match hex4 t4 with
                  | some (u2, t5) =>
                    if 0xDC00 ≤ u2 ∧ u2 ≤ 0xDFFF then
                      let cp := 0x10000 + (u1 - 0xD800) * 0x400 + (u2 - 0xDC00)
                      (parseJStr f t5).map fun p => (Char.ofNat cp :: p.1, p.2)
                    else (parseJStr f t3).map fun p => (Char.ofNat u1 :: p.1, p.2)
                  | none => (parseJStr f t3).map fun p => (Char.ofNat u1 :: p.1, p.2)
                | _ => (parseJStr f t3).map fun p => (Char.ofNat u1 :: p.1, p.2)
              else (parseJStr f t3).map fun p => (Char.ofNat u1 :: p.1, p.2)
            | none => none
          else none
    else if c.toNat < 0x20 then none
    else (parseJStr f t).map fun p => (c :: p.1, p.2)

/-- JSON number at the head of the input (`-? (0 | [1-9][0-9]*) frac?
exp?`, plus the `-Infinity` extension); integers become `jint`, anything
with a fraction or exponent becomes an unevaluated `jnum`. -/
def parseJNum (l : List Char) : Option (JVal × List Char) :=
  let neg : Bool := match l with | '-' :: _ => true | _ => false
  let l1 := if neg then l.drop 1 else l
  if neg ∧ isPrefixB "Infinity".data l1 then some (JVal.jnum "-Infinity", l1.drop 8)
  else
    let intPart := l1.takeWhile Char.isDigit
    if intPart.isEmpty then none
    else if 1 < intPart.length ∧ intPart.headD '0' = '0' then none
    else
      let l2 := l1.drop intPart.length
      let fracPart : Option (List Char × List Char) :=
        match l2 with
        | '.' :: t =>
          let ds := t.takeWhile Char.isDigit
          if ds.isEmpty then none else some (ds, t.drop ds.length)
        | _ => some ([], l2)
      match fracPart with
      | none => none
      | some (frac, l3) =>
        let expPart : Option (List Char × List Char) :=
          match l3 with
          | e :: t =>
            if e = 'e' ∨ e = 'E' then
              let t2 := match t with
                | s :: t2 => if s = '+' ∨ s = '-' then t2 else t
                | [] => t
              let ds := t2.takeWhile Char.isDigit
              if ds.isEmpty then none else some (ds, t2.drop ds.length)
            else some ([], l3)
          | [] => some ([], l3)
        match expPart with
        | none => none
        | some (exp, l4) =>
          if frac.isEmpty ∧ exp.isEmpty then
            let v : Int := intPart.foldl (fun acc c => 10 * acc + (c.toNat - '0'.toNat)) 0
            some (JVal.jint (if neg then -v else v), l4)
          else some (JVal.jnum ⟨l.take (l.length - l4.length)⟩, l4)

/-- Partially-built containers of the JSON reader. -/
inductive JCtx
  | arr (done : List JVal)
  | obj (done : List (String × JVal)) (key : String)

/-- Reader phase: about to read a value, or reducing a finished value
into the enclosing container. -/
inductive JPhase
  | expectVal
  | reduce (v : JVal)

/-- Single-step fuelled JSON reader.  Every step either consumes at least
one input character or pops one stack frame, and frames are only pushed
alongside a consumed character, so `2 * length + 4` fuel is exact. -/
def jsonRun : Nat → JPhase → List Char → List JCtx → Option (JVal × List Char)
  | 0, _, _, _ => none
  | f + 1, JPhase.expectVal, input, stack =>
    match input.dropWhile jsonWs with
    | [] => none
    | c :: t =>
      if c = '[' then
        match t.dropWhile jsonWs with
        | ']' :: t2 => jsonRun f (JPhase.reduce (JVal.jarr [])) t2 stack
        | t2 => jsonRun f JPhase.expectVal t2 (JCtx.arr [] :: stack)
      else if c = '\x7b' then
        match t.dropWhile jsonWs with
        | '\x7d' :: t2 => jsonRun f (JPhase.reduce (JVal.jobj [])) t2 stack
        | '"' :: t2 =>
          match parseJStr (t2.length + 1) t2 with
          | some (key, t3) =>
            match t3.dropWhile jsonWs with
            | ':' :: t4 => jsonRun f JPhase.expectVal t4 (JCtx.obj [] ⟨key⟩ :: stack)
            | _ => none
          | none => none
        | _ => none
      else if c = '"' then
        match parseJStr (t.length + 1) t with
        | some (cs, t2) => jsonRun f (JPhase.reduce (JVal.jstr ⟨cs⟩)) t2 stack
        | none => none
      else if c = 't' then
        if isPrefixB "rue".data t then jsonRun f (JPhase.reduce (JVal.jbool true)) (t.drop 3) stack
        else none
      else if c = 'f' then
        if isPrefixB "alse".data t then jsonRun f (JPhase.reduce (JVal.jbool false)) (t.drop 4) stack
        else none
      else if c = 'n' then
        if isPrefixB "ull".data t then jsonRun f (JPhase.reduce JVal.jnull) (t.drop 3) stack
        else none
      else if c = 'N' then
        if isPrefixB "aN".data t then jsonRun f (JPhase.reduce (JVal.jnum "NaN")) (t.drop 2) stack
        else none
      else if c = 'I' then
        if isPrefixB "nfinity".data t then
          jsonRun f (JPhase.reduce (JVal.jnum "Infinity")) (t.drop 7) stack
        else none
      else if c = '-' ∨ c.isDigit then
        match parseJNum (c :: t) with
        | some (v, t2) => jsonRun f (JPhase.reduce v) t2 stack
        | none => none
      else none
  | f + 1, JPhase.reduce v, input, stack =>
    match stack with
    | [] => some (v, input)
    | JCtx.arr done :: rest =>
      match input.dropWhile jsonWs with
      | ',' :: t => jsonRun f JPhase.expectVal t (JCtx.arr (done ++ [v]) :: rest)
      | ']' :: t => jsonRun f (JPhase.reduce (JVal.jarr (done ++ [v]))) t rest
      | _ => none
    | JCtx.obj done key :: rest =>
      match input.dropWhile jsonWs with
      | ',' :: t =>
        match t.dropWhile jsonWs with
        | '"' :: t2 =>
          match parseJStr (t2.length + 1) t2 with
          | some (key2, t3) =>
            match t3.dropWhile jsonWs with
            | ':' :: t4 =>
              jsonRun f JPhase.expectVal t4 (JCtx.obj (done ++ [(key, v)]) ⟨key2⟩ :: rest)
            | _ => none
          | none => none
        | _ => none
      | '\x7d' :: t => jsonRun f (JPhase.reduce (JVal.jobj (done ++ [(key, v)]))) t rest
      | _ => none

/-- Model of `json.loads(text)`: one JSON document with only JSON
whitespace around it, else failure. -/
def json_loads (text : String) : Option JVal :=
  match jsonRun (2 * text.data.length + 4) JPhase.expectVal text.data [] with
  | some (v, rest) => if (rest.dropWhile jsonWs).isEmpty then some v else none
  | none => none

/-- Python `text.find("\x7b")` — `none` for `-1`. -/
def findBrace (text : String) : Option Nat := text.data.findIdx? (fun c => c = '\x7b')

/-- Python `text.rfind("\x7d")` — `none` for `-1`. -/
def rfindBrace (text : String) : Option Nat :=
  (text.data.reverse.findIdx? (fun c => c = '\x7d')).map (fun j => text.data.length - 1 - j)

/-- Python slicing `text[a:b]` for `0 ≤ a ≤ b`. -/
def pySlice (text : String) (a b : Nat) : String := ⟨(text.data.drop a).take (b - a)⟩

/-- The fragment `text[start : end + 1]` of lines 175-178, available
exactly when `find` and `rfind` both succeed with `end > start`. -/
def braceFragment (text : String) : Option String :=
  match findBrace text, rfindBrace text with
  | some s, some e => if s < e then some (pySlice text s (e + 1)) else none
  | _, _ => none

/-- `extract_json(text)` — lines 170-183: the whole text, then the
brace-delimited fragment, then the empty object; never raises. -/
def extract_json (text : String) : JVal :=
  match json_loads text with
  | some v => v
  | none =>
    match braceFragment text with
    | some fragment =>
      match json_loads fragment with
      | some v => v
      | none => JVal.jobj []
    | none => JVal.jobj []

/-! ### Selector: `node_rank` (lines 574-655)

Line 644 filters with Python's `str.isdigit` and converts with `int`.
`str.isdigit` accepts every character with `Numeric_Type` Digit or
Decimal; `int` accepts only the decimal digits (category Nd).  A string
of digit-property characters that is not all-decimal (such as `"²"`)
therefore passes the filter and makes `int` raise `ValueError`, which
propagates out of `node_rank`.  The two character classes below are
transcribed from CPython 3.11's `unicodedata`: every decimal range is a
run of ten code points with values 0-9. -/

def decimalRunStarts : List Nat :=
  [0x30, 0x660, 0x6f0, 0x7c0, 0x966, 0x9e6, 0xa66, 0xae6, 0xb66, 0xbe6,
   0xc66, 0xce6, 0xd66, 0xde6, 0xe50, 0xed0, 0xf20, 0x1040, 0x1090, 0x17e0,
   0x1810, 0x1946, 0x19d0, 0x1a80, 0x1a90, 0x1b50, 0x1bb0, 0x1c40, 0x1c50, 0xa620,
   0xa8d0, 0xa900, 0xa9d0, 0xa9f0, 0xaa50, 0xabf0, 0xff10, 0x104a0, 0x10d30, 0x11066,
   0x110f0, 0x11136, 0x111d0, 0x112f0, 0x11450, 0x114d0, 0x11650, 0x116c0, 0x11730, 0x118e0,
   0x11950, 0x11c50, 0x11d50, 0x11da0, 0x16a60, 0x16ac0, 0x16b50, 0x1d7ce, 0x1d7d8, 0x1d7e2,
   0x1d7ec, 0x1d7f6, 0x1e140, 0x1e2f0, 0x1e950, 0x1fbf0]

def digitOnlyRanges : List (Nat × Nat) :=
  [(0xb2, 0xb3), (0xb9, 0xb9), (0x1369, 0x1371), (0x19da, 0x19da), (0x2070, 0x2070),
   (0x2074, 0x2079), (0x2080, 0x2089), (0x2460, 0x2468), (0x2474, 0x247c), (0x2488, 0x2490),
   (0x24ea, 0x24ea), (0x24f5, 0x24fd), (0x24ff, 0x24ff), (0x2776, 0x277e), (0x2780, 0x2788),
   (0x278a, 0x2792), (0x10a40, 0x10a43), (0x10e60, 0x10e68), (0x11052, 0x1105a), (0x1f100, 0x1f10a)]

/-- Python `str.isdecimal` on one character (Unicode category Nd — the
characters `int` accepts as digits). -/
def pyIsDecimalChar (c : Char) : Bool :=
  decimalRunStarts.any fun s => s ≤ c.toNat ∧ c.toNat < s + 10

/-- Python `str.isdigit` on one character (`Numeric_Type` Digit or
Decimal). -/
def pyIsDigitChar (c : Char) : Bool :=
  pyIsDecimalChar c || digitOnlyRanges.any fun p => p.1 ≤ c.toNat ∧ c.toNat ≤ p.2

/-- Digit value of a decimal character: its offset in its run of ten. -/
def pyDecimalVal (c : Char) : Nat :=
  match decimalRunStarts.find? (fun s => decide (s ≤ c.toNat ∧ c.toNat < s + 10)) with
  | some s => c.toNat - s
  | none => 0

/-- `int(s)` for a string of decimal digits (any script, scripts may
mix). -/
def pyIntOfDecimal (l : List Char) : Int :=
  (l.foldl (fun acc c => 10 * acc + pyDecimalVal c) 0 : Nat)

/-- Outcome of `int(i)` for one filtered element of line 644. -/
inductive IntLike
  | skip
  | val (n : Int)
  | err

/-- `int(i) for i in idxs if isinstance(i, int) or (isinstance(i, str)
and str(i).isdigit())` — line 644, per element.  JSON booleans are Python
`bool`, a subclass of `int`, so they pass the `isinstance(i, int)` test
with values 0/1; JSON non-integer numbers are floats and are filtered
out.  A digit-property string that is not all-decimal passes the filter
but makes `int` raise `ValueError`. -/
def parseIntLike : JVal → IntLike
  | JVal.jint n => IntLike.val n
  | JVal.jbool b => IntLike.val (if b then 1 else 0)
  | JVal.jstr s =>
    if ¬ s.data.isEmpty ∧ s.data.all pyIsDigitChar then
      if s.data.all pyIsDecimalChar then IntLike.val (pyIntOfDecimal s.data)
      else IntLike.err
    else IntLike.skip
  | _ => IntLike.skip

/-- The whole comprehension of line 644: the parsed integer list, or the
`ValueError` that propagates out of `node_rank`. -/
def parseIdxs : List JVal → Except String (List Int)
  | [] => Except.ok []
  | x :: t =>
    match parseIntLike x with
    | IntLike.skip => parseIdxs t
    | IntLike.val n => (parseIdxs t).map fun l => n :: l
    | IntLike.err => Except.error "ValueError: invalid literal for int() with base 10"

/-- `data.get("top_indices") if isinstance(..., list) else []` — line 643.
A JSON object is modelled as its binding list; `json.loads` keeps the last
binding of a repeated key, hence the reversed lookup. -/
def topIndicesList (data : List (String × JVal)) : List JVal :=
  match data.reverse.lookup "top_indices" with
  | some (JVal.jarr xs) => xs
  | _ => []

/-- The deterministic repair of lines 645-651: keep in-range indices, pad
with the lowest-index unselected candidates when short, truncate when long
(`n` = candidate-pool size, `k` = `top_k`). -/
def repair_indices (parsed : List Int) (n k : Nat) : List Int :=
  let idxs := parsed.filter fun i => decide (0 ≤ i ∧ i < (n : Int))
  if idxs.length < k then
    idxs ++ (((List.range n).map (Nat.cast : Nat → Int)).filter fun i => decide (i ∉ idxs)).take (k - idxs.length)
  else idxs.take k

/-- The merge of company articles into the pool — lines 587-596: per
company, up to two articles, appended when they carry a fresh truthy URL,
tagged with the company name. -/
def mergeCompany (articles : List Doc) (company_articles : List (String × List Doc)) : List Doc :=
  company_articles.foldl (fun all p =>
    (p.2.take 2).foldl (fun all art =>
      match art.url with
      | some u =>
        if u ≠ "" ∧ ¬ (some u ∈ all.map Doc.url) then
          all ++ [{ art with company_related := some p.1 }]
        else all
      | none => all) all) articles

/-- `node_rank` — lines 574-655, from the `extract_json` result on.  An
empty primary article list raises `RuntimeError` (line 578); a non-object
`extract_json` result makes `data.get` at line 643 raise
`AttributeError`; a digit-property non-decimal index string makes line
644 raise `ValueError`.  All three propagate, embedded as
`Except.error`. -/
def node_rank (articles : List Doc) (company_articles : List (String × List Doc))
    (data : JVal) (top_k : Nat) : Except String (List Doc) :=
  if articles.isEmpty then Except.error "No articles found for the given filters."
  else
    match data with
    | JVal.jobj kvs =>
      match parseIdxs (topIndicesList kvs) with
      | Except.error e => Except.error e
      | Except.ok parsed =>
        let all_articles := mergeCompany articles company_articles
        Except.ok ((repair_indices parsed all_articles.length top_k).map
          fun i => all_articles.getD i.toNat {})
    | _ => Except.error "AttributeError: object has no attribute get"

/-! ### Orchestrator loop: `should_continue` (lines 1062-1070) -/

inductive Route
  | revise
  | finish
deriving DecidableEq

/-- Python truthiness of the `critique` state field (`None` and `""` are
falsy). -/
def critiqueTruthy : Option String → Bool
  | none => false
  | some s => decide (s ≠ "")

/-- `should_continue(state)` — lines 1062-1070. -/
def should_continue (critique : Option String) (iteration max_iterations : Int) : Route :=
  if critiqueTruthy critique = true ∧ iteration < max_iterations then Route.revise
  else Route.finish

/-- Number of `revise` transitions performed by the verify/revise loop of
the graph (lines 1090-1091), given the critique produced by each verify
call (`verdicts i` is the critique of the `(i+1)`-th verify).  `node_revise`
returns `iteration + 1` (line 1059), so the iteration counter equals the
number of revisions so far; the fuel `max_iterations - iteration` is exact
because `should_continue` yields `finish` whenever `iteration ≥
max_iterations`. -/
def revisionsGo (verdicts : Nat → Option String) (max_iterations : Nat) : Nat → Nat → Nat
  | 0, _ => 0
  | fuel + 1, iter =>
    match should_continue (verdicts iter) (iter : Int) (max_iterations : Int) with
    | Route.revise => revisionsGo verdicts max_iterations fuel (iter + 1) + 1
    | Route.finish => 0

def loopRevisions (verdicts : Nat → Option String) (max_iterations : Nat) : Nat :=
  revisionsGo verdicts max_iterations max_iterations 0

/-- Number of verify calls performed by the loop, counted the same way. -/
def verifiesGo (verdicts : Nat → Option String) (max_iterations : Nat) : Nat → Nat → Nat
  | 0, _ => 1
  | fuel + 1, iter =>
    match should_continue (verdicts iter) (iter : Int) (max_iterations : Int) with
    | Route.revise => 1 + verifiesGo verdicts max_iterations fuel (iter + 1)
    | Route.finish => 1

def loopVerifies (verdicts : Nat → Option String) (max_iterations : Nat) : Nat :=
  verifiesGo verdicts max_iterations max_iterations 0

/-! ### Provider Aggregator: `search_companies_web` (lines 314-422)

The network boundary is passed in as data: `client` is the outcome of the
`DDGS()` construction (the whole body sits in one `try`, line 377, whose
handler at lines 417-419 only logs), and on success a fetch function maps
(region, backend, attempt) to the outcome of one `fetch_block` call — a
chunk of already-deduplicated items, or an error for a raised exception. -/

/-- The per-backend retry loop of lines 384-399: attempts run while
`attempt ≤ retries` (fuel `retries + 1` is exact) and the region's
accumulator holds fewer than `max_results * 2` items; a non-empty chunk is
appended and breaks, an empty chunk or an exception backs off and retries. -/
def backendRetryGo (fetch : Nat → Except String (List Doc)) (max_results : Nat) :
    Nat → Nat → List Doc → List Doc
  | 0, _, got => got
  | fuel + 1, attempt, got =>
    if got.length < max_results * 2 then
      match fetch attempt with
      | Except.ok chunk =>
        if ¬ chunk.isEmpty then got ++ chunk
        else backendRetryGo fetch max_results fuel (attempt + 1) got
      | Except.error _ => backendRetryGo fetch max_results fuel (attempt + 1) got
    else got

/-- One region's bucket (lines 381-401): fold the retry loop over the
backend list, accumulating `got_for_region`. -/
def regionBucket (fetch : String → Nat → Except String (List Doc))
    (backends : List String) (retries max_results : Nat) : List Doc :=
  backends.foldl (fun got b => backendRetryGo (fetch b) max_results (retries + 1) 0 got) []

def bucketsMaxLen (buckets : List (List Doc)) : Nat :=
  buckets.foldl (fun m b => max m b.length) 0

/-- One pass of the round-robin merge (lines 406-414): take element `i`
from each bucket that still has one, stopping once `max_results` items are
collected. -/
def rrRound (i : Nat) (max_results : Nat) : List (List Doc) → List Doc → List Doc
  | [], res => res
  | b :: bs, res =>
    if h : i < b.length then
      let res2 := res ++ [b.get ⟨i, h⟩]
      if max_results ≤ res2.length then res2 else rrRound i max_results bs res2
    else rrRound i max_results bs res

/-- The round-robin merge loop of lines 404-415.  Python's `any(buckets)`
tests whether some bucket is non-empty; `advanced` is true exactly when
some bucket has an `i`-th element, and a pass with `advanced = False`
appends nothing, so testing before the pass is equivalent.  The fuel
`bucketsMaxLen + 1` is exact: `i` increases by 1 per pass and the loop
breaks once `i` reaches every bucket's length. -/
def rrGo (buckets : List (List Doc)) (max_results : Nat) : Nat → Nat → List Doc → List Doc
  | 0, _, res => res
  | fuel + 1, i, res =>
    if res.length < max_results ∧ buckets.any (fun b => ¬ b.isEmpty) then
      if buckets.any (fun b => decide (i < b.length)) then
        rrGo buckets max_results fuel (i + 1) (rrRound i max_results buckets res)
      else res
    else res

def roundRobin (buckets : List (List Doc)) (max_results : Nat) : List Doc :=
  rrGo buckets max_results (bucketsMaxLen buckets + 1) 0 []

/-- `search_companies_web` — lines 314-422 from the network boundary on:
a failed client construction (or any escape from the `try` block) lands in
the handler of lines 417-419 with `results` still empty, and the final
trim of line 422 returns that empty list. -/
def search_companies_web (client : Except String (String → String → Nat → Except String (List Doc)))
    (regions backends : List String) (retries max_results : Nat) : List Doc :=
  match client with
  | Except.error _ => ([] : List Doc).take max_results
  | Except.ok fetch =>
    let buckets := regions.map fun reg => regionBucket (fetch reg) backends retries max_results
    (roundRobin buckets max_results).take max_results

/-! ### Company Verifier: `node_search_companies` (lines 432-559) -/

/-- The relevance post-filter of lines 526-550: keep a result when the
company name occurs in its lowercased title+description; tag it
`relevance_score = "medium"` when neither a topic keyword (length > 3)
occurs nor the company name occurs at least twice. -/
def company_filter (company_name topic : String) (articles : List Doc) : List Doc :=
  articles.foldl (fun acc article =>
    let title := pyLower (article.title.getD "")
    let description := pyLower (article.description.getD "")
    let combined_text := title ++ " " ++ description
    let company_mentioned := pyIn (pyLower company_name) combined_text
    let topic_related :=
      decide (topic ≠ "") &&
        (pySplitWs (pyLower topic)).any fun kw => decide (3 < kw.length) && pyIn kw combined_text
    if company_mentioned ∧ (topic_related ∨ 2 ≤ pyCount combined_text (pyLower company_name)) then
      acc ++ [article]
    else if company_mentioned then
      acc ++ [{ article with relevance_score := some "medium" }]
    else acc) []

/-- `node_search_companies` — the per-company loop of lines 454-557 from
the search boundary on: `searchOutcome name` is the outcome of the
`search_companies_web` call inside the `try` of line 517; the handler of
lines 555-557 maps a raised exception to `[]` for that company and the
loop continues with the remaining companies. -/
def node_search_companies (company_focus : List (String × String)) (topic : String)
    (searchOutcome : String → Except String (List Doc)) : List (String × List Doc) :=
  company_focus.map fun p =>
    match searchOutcome p.1 with
    | Except.ok articles => (p.1, company_filter p.1 topic articles)
    | Except.error _ => (p.1, [])

/-! ### Reviser used-source tracking: `node_revise` (lines 1032-1049) -/

/-- First index of `x` in `l` — Python `list.index` (total here because it
is only applied under `x ∈ l`). -/
def pyIndexOf (l : List Doc) (x : Doc) : Nat :=
  match l with
  | [] => 0
  | y :: t => if x = y then 0 else pyIndexOf t x + 1

/-- The used-source bookkeeping of `node_revise`, lines 1034-1049.
`marker = none` models a response without the `USED_SOURCES:` substring;
`marker = some numbers` carries the naturals found by `re.findall(r'\d+')`
after it (that parse cannot raise, so the `except` branch at line 1044 is
dead for modelled inputs). -/
def node_revise_used (marker : Option (List Nat)) (selected used_sources : List Doc) : List Doc :=
  let used_indices : List Nat :=
    match marker with
    | some numbers =>
      (numbers.filter fun nn => decide (1 ≤ nn ∧ nn ≤ selected.length)).map (· - 1)
    | none => (used_sources.filter fun s => decide (s ∈ selected)).map (pyIndexOf selected)
  if used_indices.isEmpty then used_sources
  else used_indices.map fun i => selected.getD i {}

/-! ## Supporting lemmas -/

theorem dropWhile_length_le (p : Char → Bool) (l : List Char) :
    (l.dropWhile p).length ≤ l.length :=
  (List.dropWhile_sublist p).length_le

theorem stripList_length_le (l : List Char) : (stripList l).length ≤ l.length := by
  unfold stripList
  calc ((l.dropWhile pyIsSpace).reverse.dropWhile pyIsSpace).reverse.length
      = ((l.dropWhile pyIsSpace).reverse.dropWhile pyIsSpace).length := List.length_reverse _
    _ ≤ (l.dropWhile pyIsSpace).reverse.length := dropWhile_length_le _ _
    _ = (l.dropWhile pyIsSpace).length := List.length_reverse _
    _ ≤ l.length := dropWhile_length_le _ _

theorem pyStrip_length_le (s : String) : (pyStrip s).length ≤ s.length :=
  stripList_length_le s.data

theorem pyRstrip_length_le (s : String) : (pyRstrip s).length ≤ s.length := by
  show ((s.data.reverse.dropWhile pyIsSpace).reverse).length ≤ s.data.length
  rw [List.length_reverse]
  calc (s.data.reverse.dropWhile pyIsSpace).length
      ≤ s.data.reverse.length := dropWhile_length_le _ _
    _ = s.data.length := List.length_reverse _

theorem pyTake_length_le (s : String) (n : Nat) : (pyTake s n).length ≤ n := by
  show (s.data.take n).length ≤ n
  rw [List.length_take]
  exact min_le_left _ _

theorem pyTake_length_le_self (s : String) (n : Nat) : (pyTake s n).length ≤ s.length := by
  show (s.data.take n).length ≤ s.data.length
  rw [List.length_take]
  exact min_le_right _ _

theorem getD_mem (l : List Char) (j : Nat) (d : Char) (h : j < l.length) : l.getD j d ∈ l := by
  induction l generalizing j with
  | nil => simp at h
  | cons c t ih =>
    cases j with
    | zero => simp
    | succ j' =>
      rw [List.getD_cons_succ]
      exact List.mem_cons_of_mem c (ih j' (by simpa using h))

/-- Whenever the budget is positive, `truncate_under` returns at most
`max_chars` characters. -/
theorem truncate_under_length (t : String) (m : Int) (hm : 0 < m) :
    ((truncate_under t m).length : Int) ≤ m := by
  unfold truncate_under
  rw [if_neg (by omega)]
  by_cases hlen : (t.length : Int) ≤ m
  · rw [if_pos hlen]; exact hlen
  · rw [if_neg hlen]
    have hbound : ∀ s : String, s.length ≤ (m - 1).toNat → ((pyStrip s).length : Int) ≤ m := by
      intro s hs
      have h1 : (pyStrip s).length ≤ (m - 1).toNat := le_trans (pyStrip_length_le s) hs
      have h2 : ((m - 1).toNat : Int) = m - 1 := Int.toNat_of_nonneg (by omega)
      omega
    by_cases hc : 0 < lastPuncEnd (pyTake t (m - 1).toNat) ∧
        6 * m < 10 * ((lastPuncEnd (pyTake t (m - 1).toNat) : Int))
    · rw [if_pos hc]
      exact hbound _ (le_trans (pyTake_length_le_self _ _) (pyTake_length_le t (m - 1).toNat))
    · rw [if_neg hc]
      exact hbound _ (pyTake_length_le t (m - 1).toNat)

/-! ## C4 — truncation algorithm -/

/-- `e` is the 1-based end position of the last `[.!?]` character of `s`
(`0` when `s` has none): the specification-side description of the
"last sentence-ending punctuation mark in the prefix". -/
def IsLastPuncEnd (s : String) (e : Nat) : Prop :=
  (e = 0 ∨ (0 < e ∧ e ≤ s.length ∧ s.data.getD (e - 1) ' ' ∈ puncChars)) ∧
  ∀ j ∈ List.range s.length, e ≤ j → s.data.getD j ' ' ∉ puncChars

instance (s : String) (e : Nat) : Decidable (IsLastPuncEnd s e) := by
  unfold IsLastPuncEnd; infer_instance

theorem lastPuncGo_of_none (l : List Char) :
    ∀ i acc, (∀ c ∈ l, c ∉ puncChars) → lastPuncGo i acc l = acc := by
  induction l with
  | nil => intro i acc _; rfl
  | cons c t ih =>
    intro i acc h
    have hc : c ∉ puncChars := h c (List.mem_cons_self c t)
    show lastPuncGo (i + 1) (if c ∈ puncChars then i + 1 else acc) t = acc
    rw [if_neg hc]
    exact ih _ _ (fun d hd => h d (List.mem_cons_of_mem c hd))

theorem lastPuncGo_of_some (l : List Char) :
    ∀ i acc, (∃ c ∈ l, c ∈ puncChars) →
      ∃ j, j < l.length ∧ l.getD j ' ' ∈ puncChars ∧
        (∀ j2, j < j2 → j2 < l.length → l.getD j2 ' ' ∉ puncChars) ∧
        lastPuncGo i acc l = i + j + 1 := by
  induction l with
  | nil => intro i acc h; exact absurd h (by simp)
  | cons c t ih =>
    intro i acc h
    by_cases ht : ∃ d ∈ t, d ∈ puncChars
    · obtain ⟨j, hj1, hj2, hj3, hj4⟩ := ih (i + 1) (if c ∈ puncChars then i + 1 else acc) ht
      refine ⟨j + 1, by simpa using Nat.succ_lt_succ hj1, by simpa using hj2, ?_, ?_⟩
      · intro j2 hgt hlt
        cases j2 with
        | zero => omega
        | succ j2' =>
          have := hj3 j2' (by omega) (by simpa using hlt)
          simpa using this
      · show lastPuncGo (i + 1) (if c ∈ puncChars then i + 1 else acc) t = i + (j + 1) + 1
        rw [hj4]; omega
    · have hc : c ∈ puncChars := by
        obtain ⟨d, hd, hdp⟩ := h
        rcases List.mem_cons.mp hd with rfl | hdt
        · exact hdp
        · exact absurd ⟨d, hdt, hdp⟩ ht
      refine ⟨0, by simp, by simpa using hc, ?_, ?_⟩
      · intro j2 hgt hlt
        cases j2 with
        | zero => omega
        | succ j2' =>
          intro hmem
          rw [List.getD_cons_succ] at hmem
          exact ht ⟨t.getD j2' ' ', getD_mem t j2' ' ' (by simpa using hlt), hmem⟩
      · show lastPuncGo (i + 1) (if c ∈ puncChars then i + 1 else acc) t = i + 0 + 1
        rw [if_pos hc, lastPuncGo_of_none t _ _ (fun d hd hdp => ht ⟨d, hd, hdp⟩)]

/-- `lastPuncEnd` computes the position described by `IsLastPuncEnd`. -/
theorem lastPuncEnd_isLast (s : String) : IsLastPuncEnd s (lastPuncEnd s) := by
  by_cases h : ∃ c ∈ s.data, c ∈ puncChars
  · obtain ⟨j, hj1, hj2, hj3, hj4⟩ := lastPuncGo_of_some s.data 0 0 h
    have he : lastPuncEnd s = j + 1 := by
      show lastPuncGo 0 0 s.data = j + 1; rw [hj4]; omega
    constructor
    · right
      refine ⟨by omega, by rw [he]; exact hj1, ?_⟩
      rw [he]; simpa using hj2
    · intro j2 hj2mem hge
      rw [he] at hge
      exact hj3 j2 (by omega) (by simpa using hj2mem)
  · push_neg at h
    have he : lastPuncEnd s = 0 := lastPuncGo_of_none s.data 0 0 h
    rw [he]
    exact ⟨Or.inl rfl, fun j hj _ => h _ (getD_mem s.data j ' ' (by simpa using hj))⟩

/-- The position described by `IsLastPuncEnd` is unique. -/
theorem isLastPuncEnd_unique (s : String) (e : Nat) (h : IsLastPuncEnd s e) :
    e = lastPuncEnd s := by
  have h' := lastPuncEnd_isLast s
  by_contra hne
  rcases Nat.lt_or_ge e (lastPuncEnd s) with hlt | hge
  · rcases h'.1 with h0 | ⟨hpos, hle, hmem⟩
    · omega
    · exact h.2 (lastPuncEnd s - 1) (by simp; omega) (by omega) hmem
  · have hlt : lastPuncEnd s < e := by omega
    rcases h.1 with h0 | ⟨hpos, hle, hmem⟩
    · omega
    · exact h'.2 (e - 1) (by simp; omega) (by omega) hmem

/-- C4 counterexample: for `text = "abcde fghij"` and `max_chars = 7` the
prefix of `max_chars − 1` characters is `"abcde "`, it contains no
sentence-ending punctuation, yet `truncate_under` does not return that raw
prefix — it strips the trailing space and returns `"abcde"`. -/
theorem C4_counterexample :
    7 < ("abcde fghij" : String).length ∧
    lastPuncEnd (pyTake "abcde fghij" 6) = 0 ∧
    truncate_under "abcde fghij" 7 = "abcde" ∧
    truncate_under "abcde fghij" 7 ≠ pyTake "abcde fghij" (7 - 1) := by
  refine ⟨by decide, by decide, by decide, by decide⟩

/-- C4 (amended): for every text and positive budget, `truncate_under`
returns the text unchanged when its length is at most `max_chars`
(truncating an already-short text is the identity); otherwise it cuts at
`max_chars − 1` characters and, with `e` the end position of the last
sentence-ending punctuation mark (`.`, `!`, `?`) in that prefix, cuts at
that punctuation mark when `e` exceeds 60% of `max_chars`, else keeps the
`max_chars − 1` prefix — in both overflow cases with surrounding
whitespace stripped from the cut (Python `.strip()`). -/
theorem C4_truncate_characterization (t : String) (m : Int) (hm : 0 < m) :
    ((t.length : Int) ≤ m → truncate_under t m = t) ∧
    (∀ e, IsLastPuncEnd (pyTake t (m - 1).toNat) e →
      m < (t.length : Int) →
        truncate_under t m =
          if 0 < e ∧ 6 * m < 10 * (e : Int) then
            pyStrip (pyTake (pyTake t (m - 1).toNat) e)
          else pyStrip (pyTake t (m - 1).toNat)) := by
  constructor
  · intro hle
    unfold truncate_under
    rw [if_neg (by omega), if_pos hle]
  · intro e he hgt
    have hee : e = lastPuncEnd (pyTake t (m - 1).toNat) := isLastPuncEnd_unique _ e he
    subst hee
    unfold truncate_under
    rw [if_neg (by omega), if_neg (by omega)]

/-- Concrete instance of `C4_truncate_characterization`: the prefix of
`"ab. cd. efgh"` under budget 10 is `"ab. cd. e"`, its last punctuation
ends at position 7 > 6 = 60% of the budget, and the cut lands there. -/
theorem C4_witness :
    truncate_under "ab. cd. efgh" 10 = "ab. cd." := by
  have h := (C4_truncate_characterization "ab. cd. efgh" 10 (by decide)).2 7 (by decide) (by decide)
  rw [if_pos (by decide)] at h
  rw [h]; decide

/-! ## C5 — URL dedup is idempotent -/

/-- The seen-set dedup loop is idempotent for any key function: every item
it keeps has a key outside `seen`, and the kept keys are fresh at their
position, so a second pass keeps everything. -/
theorem dedupByAux_idem (key : Doc → Option String) :
    ∀ (l : List Doc) (seen : List String),
      dedupByAux key seen (dedupByAux key seen l) = dedupByAux key seen l := by
  intro l
  induction l with
  | nil => intro seen; rfl
  | cons it rest ih =>
    intro seen
    cases hk : key it with
    | none => simp only [dedupByAux, hk]; exact ih seen
    | some k =>
      by_cases hmem : k ∈ seen
      · simp only [dedupByAux, hk, if_pos hmem]; exact ih seen
      · simp only [dedupByAux, hk, if_neg hmem]
        rw [ih (k :: seen)]

/-- C5: both URL-deduplication steps of the pipeline are idempotent —
`unique_by_url` (keyed by the raw URL) and the Provider Aggregator's
normalized-URL dedup (keyed by `norm`: lowercased host, leading `www.`
stripped, trailing slash removed, scheme and query ignored).  Applying
either to its own output returns the same list. -/
theorem C5_dedup_idempotent (items : List Doc) :
    unique_by_url (unique_by_url items) = unique_by_url items ∧
    dedup_norm (dedup_norm items) = dedup_norm items :=
  ⟨dedupByAux_idem rawUrlKey items [], dedupByAux_idem normUrlKey items []⟩

/-! ## C9 — content-type normalization -/

/-- The foldr of `normalise_types` builds exactly
`(ts.map cleanType).filter (fun u => u ∈ validTypes)`. -/
theorem normalise_fold_eq (ts : List String) :
    ts.foldr (fun t acc => if cleanType t ∈ validTypes then cleanType t :: acc else acc) [] =
      (ts.map cleanType).filter (fun u => decide (u ∈ validTypes)) := by
  induction ts with
  | nil => rfl
  | cons t rest ih =>
    simp only [List.foldr_cons, List.map_cons, List.filter_cons, ih, decide_eq_true_eq]

/-- `normalise_types` on a present list: clean each entry, keep the valid
ones, fall back to `["news"]` when nothing valid remains. -/
theorem normalise_types_some (ts : List String) :
    normalise_types (some ts) =
      (let cleaned := (ts.map cleanType).filter (fun u => decide (u ∈ validTypes))
       if cleaned.isEmpty then ["news"] else cleaned) := by
  cases ts with
  | nil => rfl
  | cons t rest =>
    have h1 : normalise_types (some (t :: rest)) =
        (let out := (t :: rest).foldr
            (fun t acc => if cleanType t ∈ validTypes then cleanType t :: acc else acc) []
         if out.isEmpty then ["news"] else out) := rfl
    rw [h1]
    simp only [normalise_fold_eq]

/-- C9: the normalized content-type list is non-empty and contains only
valid types; each entry is trimmed and lowercased and the plural `blogs`
collapses to `blog` (`cleanType`); entries outside `{news, blog, pr}` are
dropped; and a missing, empty, or all-invalid input falls back to
`["news"]`. -/
theorem C9_normalise_types :
    (∀ types, normalise_types types ≠ [] ∧ ∀ t ∈ normalise_types types, t ∈ validTypes) ∧
    normalise_types none = ["news"] ∧
    (∀ ts : List String,
      normalise_types (some ts) =
        (let cleaned := (ts.map cleanType).filter (fun u => decide (u ∈ validTypes))
         if cleaned.isEmpty then ["news"] else cleaned)) := by
  refine ⟨?_, rfl, normalise_types_some⟩
  intro types
  have hbase : (["news"] : List String) ≠ [] ∧ ∀ t ∈ (["news"] : List String), t ∈ validTypes := by
    refine ⟨by simp, ?_⟩
    intro t ht
    have hteq : t = "news" := by simpa using ht
    simp [hteq, validTypes]
  cases types with
  | none => simpa [normalise_types] using hbase
  | some ts =>
    rw [normalise_types_some ts]
    by_cases hemp : ((ts.map cleanType).filter (fun u => decide (u ∈ validTypes))).isEmpty = true
    · simpa [hemp] using hbase
    · have hx : (ts.map cleanType).filter (fun u => decide (u ∈ validTypes)) ≠ [] := by
        intro h0
        rw [h0] at hemp
        simp at hemp
      simp only [if_neg hemp]
      exact ⟨hx, fun t ht => by simpa using List.of_mem_filter ht⟩

/-- Concrete instance of `C9_normalise_types`: `["Blogs ", "zzz"]`
normalizes to a non-empty all-valid list (namely `["blog"]`). -/
theorem C9_witness :
    normalise_types (some ["Blogs ", "zzz"]) ≠ [] ∧ "blog" ∈ validTypes :=
  ⟨(C9_normalise_types.1 (some ["Blogs ", "zzz"])).1,
   (C9_normalise_types.1 (some ["Blogs ", "zzz"])).2 "blog" (by decide)⟩

/-! ## C2 — selector repair -/

theorem filter_split_length (l : List Int) (p : Int → Bool) :
    (l.filter p).length + (l.filter fun a => ! p a).length = l.length := by
  induction l with
  | nil => rfl
  | cons a t ih =>
    by_cases hp : p a = true
    · simp [List.filter_cons, hp, ← ih]; omega
    · have hp' : p a = false := by simpa using hp
      simp [List.filter_cons, hp', ← ih]; omega

/-- A duplicate-free list of elements of `l` is no longer than `l`. -/
theorem nodup_subset_length_le (s l : List Int) (hnd : s.Nodup) (hsub : ∀ a ∈ s, a ∈ l) :
    s.length ≤ l.length := by
  calc s.length = s.toFinset.card := (List.toFinset_card_of_nodup hnd).symm
    _ ≤ l.toFinset.card := by
        apply Finset.card_le_card
        intro a ha
        rw [List.mem_toFinset] at ha ⊢
        exact hsub a ha
    _ ≤ l.length := l.toFinset_card_le

/-- The in-range candidates not selected by `idxs` number at least
`n − idxs.length`. -/
theorem pad_supply (idxs : List Int) (n : Nat) :
    n - idxs.length ≤
      (((List.range n).map (Nat.cast : Nat → Int)).filter fun i => decide (i ∉ idxs)).length := by
  set R := (List.range n).map (Nat.cast : Nat → Int) with hR
  have hRlen : R.length = n := by rw [hR, List.length_map, List.length_range]
  have hRnd : R.Nodup := by
    rw [hR]
    exact (List.nodup_range n).map (fun a b h => by omega)
  have hsplit := filter_split_length R (fun i => decide (i ∈ idxs))
  have hin : (R.filter fun i => decide (i ∈ idxs)).length ≤ idxs.length := by
    apply nodup_subset_length_le _ idxs (hRnd.filter _)
    intro a ha
    simpa using (List.of_mem_filter ha)
  have hnotP : (R.filter fun i => ! decide (i ∈ idxs)) = (R.filter fun i => decide (i ∉ idxs)) := by
    apply List.filter_congr
    intro a _
    simp
  rw [hnotP] at hsplit
  omega

/-- Core repair guarantee, stated over the integer list the completed
parse of line 644 produced. -/
theorem repair_indices_spec (parsed : List Int) (n k : Nat) (hk : k ≤ n) :
    (repair_indices parsed n k).length = k ∧
    (∀ i ∈ repair_indices parsed n k, 0 ≤ i ∧ i < (n : Int)) ∧
    ((parsed.filter fun i => decide (0 ≤ i ∧ i < (n : Int))).Nodup →
      (repair_indices parsed n k).Nodup) := by
  set idxs := parsed.filter fun i => decide (0 ≤ i ∧ i < (n : Int)) with hidxs
  set pad := (((List.range n).map (Nat.cast : Nat → Int)).filter fun i => decide (i ∉ idxs)) with hpad
  have hmemIdxs : ∀ i ∈ idxs, 0 ≤ i ∧ i < (n : Int) := by
    intro i hi
    rw [hidxs] at hi
    simpa using List.of_mem_filter hi
  have hmemPad : ∀ i ∈ pad, (0 ≤ i ∧ i < (n : Int)) ∧ i ∉ idxs := by
    intro i hi
    rw [hpad] at hi
    refine ⟨?_, by simpa using List.of_mem_filter hi⟩
    have := List.mem_of_mem_filter hi
    obtain ⟨j, hj, rfl⟩ := List.mem_map.mp this
    rw [List.mem_range] at hj
    exact ⟨by omega, by omega⟩
  by_cases hlt : idxs.length < k
  · have hres : repair_indices parsed n k = idxs ++ pad.take (k - idxs.length) := by
      rw [repair_indices]
      rw [← hidxs, if_pos hlt, ← hpad]
    have hsupply : k - idxs.length ≤ pad.length := by
      have := pad_supply idxs n
      rw [← hpad] at this
      omega
    have hlen : (repair_indices parsed n k).length = k := by
      rw [hres, List.length_append, List.length_take]
      omega
    refine ⟨hlen, ?_, ?_⟩
    · intro i hi
      rw [hres, List.mem_append] at hi
      rcases hi with hi | hi
      · exact hmemIdxs i hi
      · exact (hmemPad i ((List.take_sublist _ _).subset hi)).1
    · intro hnd
      rw [hres]
      have hpadnd : pad.Nodup := by
        rw [hpad]
        exact ((List.nodup_range n).map (fun a b h => by omega)).filter _
      refine List.Nodup.append hnd (hpadnd.sublist (List.take_sublist _ _)) ?_
      intro a ha hpa
      exact (hmemPad a ((List.take_sublist _ _).subset hpa)).2 ha
  · have hres : repair_indices parsed n k = idxs.take k := by
      rw [repair_indices]
      rw [← hidxs, if_neg hlt]
    refine ⟨?_, ?_, ?_⟩
    · rw [hres, List.length_take]
      omega
    · intro i hi
      exact hmemIdxs i ((List.take_sublist _ _).subset (hres ▸ hi))
    · intro hnd
      rw [hres]
      exact hnd.sublist (List.take_sublist _ _)

/-- C2 (amended): for every candidate pool of size `n ≥ k` and every
ranking reply whose index parse at line 644 completes without raising
(it raises `ValueError` on digit-property strings outside the decimal
digits, such as `"\u00B2"`), the repaired index list contains exactly `k`
indices, each in range for the pool; it is moreover duplicate-free
whenever the parsed in-range indices are pairwise distinct — the repair
never removes duplicates already present in the reply. -/
theorem C2_repair_indices (kvs : List (String × JVal)) (parsed : List Int) (n k : Nat)
    (hparse : parseIdxs (topIndicesList kvs) = Except.ok parsed) (hk : k ≤ n) :
    (repair_indices parsed n k).length = k ∧
    (∀ i ∈ repair_indices parsed n k, 0 ≤ i ∧ i < (n : Int)) ∧
    ((parsed.filter fun i => decide (0 ≤ i ∧ i < (n : Int))).Nodup →
      (repair_indices parsed n k).Nodup) :=
  repair_indices_spec parsed n k hk

/-- C2 counterexample: with a pool of size 2 and `k = 2`, the ranking
reply `\x7b"top_indices": [1, 1]\x7d` parses to two in-range indices and
the repaired selection is `[1, 1]` — exactly `k` indices, all in range,
but with a duplicate, contradicting the claim's "no duplicate index";
and the reply `\x7b"top_indices": ["\u00B2"]\x7d` makes the parse itself
raise `ValueError`, so for that text no index list is returned at all. -/
theorem C2_counterexample :
    parseIdxs (topIndicesList [("top_indices", JVal.jarr [JVal.jint 1, JVal.jint 1])]) =
      Except.ok [1, 1] ∧
    repair_indices [1, 1] 2 2 = [1, 1] ∧
    ¬ (repair_indices [1, 1] 2 2).Nodup ∧
    parseIdxs (topIndicesList [("top_indices", JVal.jarr [JVal.jstr "\u00B2"])]) =
      Except.error "ValueError: invalid literal for int() with base 10" := by
  refine ⟨by rfl, by decide, by decide, by rfl⟩

/-- Concrete instance of `C2_repair_indices`: pool of size 3, `k = 2`,
reply `\x7b"top_indices": [5, 0]\x7d` — the parse completes, the
out-of-range 5 is dropped and the selection is padded back to exactly two
distinct in-range indices. -/
theorem C2_witness :
    (repair_indices [5, 0] 3 2).length = 2 ∧
    (∀ i ∈ repair_indices [5, 0] 3 2, 0 ≤ i ∧ i < (3 : Int)) ∧
    (repair_indices [5, 0] 3 2).Nodup := by
  have h := C2_repair_indices [("top_indices", JVal.jarr [JVal.jint 5, JVal.jint 0])]
    [5, 0] 3 2 (by rfl) (by decide)
  exact ⟨h.1, h.2.1, h.2.2 (by decide)⟩

/-! ## C3 — bounded verify/revise loop -/

theorem revisionsGo_le (verdicts : Nat → Option String) (m : Nat) :
    ∀ fuel iter, revisionsGo verdicts m fuel iter ≤ fuel := by
  intro fuel
  induction fuel with
  | zero => intro iter; exact Nat.le_refl 0
  | succ f ih =>
    intro iter
    show (match should_continue (verdicts iter) (iter : Int) (m : Int) with
      | Route.revise => revisionsGo verdicts m f (iter + 1) + 1
      | Route.finish => 0) ≤ f + 1
    cases should_continue (verdicts iter) (iter : Int) (m : Int) with
    | revise => exact Nat.succ_le_succ (ih (iter + 1))
    | finish => exact Nat.zero_le _

theorem verifiesGo_eq (verdicts : Nat → Option String) (m : Nat) :
    ∀ fuel iter, verifiesGo verdicts m fuel iter = revisionsGo verdicts m fuel iter + 1 := by
  intro fuel
  induction fuel with
  | zero => intro iter; rfl
  | succ f ih =>
    intro iter
    show (match should_continue (verdicts iter) (iter : Int) (m : Int) with
      | Route.revise => 1 + verifiesGo verdicts m f (iter + 1)
      | Route.finish => 1) = (match should_continue (verdicts iter) (iter : Int) (m : Int) with
      | Route.revise => revisionsGo verdicts m f (iter + 1) + 1
      | Route.finish => 0) + 1
    cases should_continue (verdicts iter) (iter : Int) (m : Int) with
    | revise =>
      show 1 + verifiesGo verdicts m f (iter + 1) = revisionsGo verdicts m f (iter + 1) + 1 + 1
      rw [ih (iter + 1)]
      omega
    | finish => rfl

/-- C3: for every run and every sequence of verifier verdicts (including
all-revise), the loop performs at most `max_iterations` revisions and at
most `max_iterations + 1` verify calls, and the `revise` transition is
taken iff the critique is a non-empty string and the iteration count is
strictly below `max_iterations` — the orchestrator never loops
unboundedly. -/
theorem C3_loop_bounded :
    (∀ (verdicts : Nat → Option String) (m : Nat), loopRevisions verdicts m ≤ m) ∧
    (∀ (verdicts : Nat → Option String) (m : Nat),
      loopVerifies verdicts m = loopRevisions verdicts m + 1 ∧ loopVerifies verdicts m ≤ m + 1) ∧
    (∀ (c : Option String) (i m : Int),
      should_continue c i m = Route.revise ↔ (∃ s, c = some s ∧ s ≠ "") ∧ i < m) := by
  refine ⟨?_, ?_, ?_⟩
  · intro verdicts m
    exact revisionsGo_le verdicts m m 0
  · intro verdicts m
    refine ⟨verifiesGo_eq verdicts m m 0, ?_⟩
    rw [loopVerifies, verifiesGo_eq verdicts m m 0]
    exact Nat.succ_le_succ (revisionsGo_le verdicts m m 0)
  · intro c i m
    unfold should_continue
    have hc : critiqueTruthy c = true ↔ ∃ s, c = some s ∧ s ≠ "" := by
      cases c with
      | none => simp [critiqueTruthy]
      | some s => simp [critiqueTruthy]
    by_cases h : critiqueTruthy c = true ∧ i < m
    · rw [if_pos h]
      simp only [true_iff]
      exact ⟨hc.mp h.1, h.2⟩
    · rw [if_neg h]
      constructor
      · intro habs
        exact absurd habs (by simp)
      · intro hcond
        exact absurd ⟨hc.mpr hcond.1, hcond.2⟩ h

/-! ## C6 — empty pool is fatal; malformed selection output degrades -/

theorem repair_indices_empty (n k : Nat) :
    repair_indices [] n k = ((List.range n).map (Nat.cast : Nat → Int)).take k := by
  unfold repair_indices
  simp only [List.filter_nil, List.length_nil]
  by_cases hk : 0 < k
  · rw [if_pos (by simpa using hk)]
    have hfull : (((List.range n).map (Nat.cast : Nat → Int)).filter
        fun i => decide (i ∉ ([] : List Int))) = (List.range n).map (Nat.cast : Nat → Int) :=
      List.filter_eq_self.mpr (by intro a _; simp)
    rw [hfull]
    simp
  · have hk0 : k = 0 := by omega
    subst hk0
    simp

theorem range_map_getD (l : List Doc) (m : Nat) (hm : m ≤ l.length) :
    (List.range m).map (fun j => l.getD j ({} : Doc)) = l.take m := by
  apply List.ext_getElem
  · simp only [List.length_map, List.length_range, List.length_take]
    omega
  · intro i h1 h2
    have hi : i < m := by simpa using h1
    have hil : i < l.length := by omega
    rw [List.getElem_map, List.getElem_range, List.getD_eq_getElem l _ hil, List.getElem_take]

/-- C6 (amended): an empty primary article list makes `node_rank` raise
the fatal run error, regardless of company results or LLM output.
`extract_json` itself never raises: malformed text without a parseable
brace-delimited fragment degrades to the empty object, the empty object
parses to an empty selection before padding, and the selector then
returns the first `top_k` pool entries.  When the malformed text does
carry a parseable brace-delimited fragment, `extract_json` salvages it
and the selection starts from the fragment instead — and the integer
parse can then raise `ValueError` (see the counterexample). -/
theorem C6_rank_errors :
    (∀ (company_articles : List (String × List Doc)) (data : JVal) (k : Nat),
      node_rank [] company_articles data k =
        Except.error "No articles found for the given filters.") ∧
    (∀ text : String,
      json_loads text = none →
      (∀ fragment, braceFragment text = some fragment → json_loads fragment = none) →
      extract_json text = JVal.jobj []) ∧
    parseIdxs (topIndicesList []) = Except.ok [] ∧
    (∀ (articles : List Doc) (company_articles : List (String × List Doc)) (k : Nat),
      articles ≠ [] →
        node_rank articles company_articles (JVal.jobj []) k =
          Except.ok ((mergeCompany articles company_articles).take k)) := by
  refine ⟨?_, ?_, rfl, ?_⟩
  · intro comps data k
    rfl
  · intro text hl hfrag
    cases hb : braceFragment text with
    | none => simp only [extract_json, hl, hb]
    | some fragment => simp only [extract_json, hl, hb, hfrag fragment hb]
  · intro arts comps k harts
    unfold node_rank
    rw [if_neg (by simpa using harts)]
    show Except.ok ((repair_indices [] (mergeCompany arts comps).length k).map
        fun i => (mergeCompany arts comps).getD i.toNat ({} : Doc)) =
      Except.ok ((mergeCompany arts comps).take k)
    rw [repair_indices_empty]
    congr 1
    rw [← List.map_take, List.map_map, List.take_range]
    have hcomp : ((fun i => (mergeCompany arts comps).getD i.toNat ({} : Doc)) ∘
        (Nat.cast : Nat → Int)) = fun j => (mergeCompany arts comps).getD j ({} : Doc) := by
      funext j
      simp [Int.toNat_natCast]
    rw [hcomp, range_map_getD _ _ (min_le_right _ _)]
    exact List.take_eq_take.mpr (by omega)

/-- C6 counterexample: the non-JSON reply
`Sure! \x7b"top_indices": [1, 0]\x7d` fails `json.loads` as a whole, yet
`extract_json` salvages the brace-delimited fragment, so the selection
before padding is `[1, 0]`, not empty; and the malformed reply
`x \x7b"top_indices": ["\u00B2"]\x7d y` makes the selection raise
`ValueError` — contradicting both "degrades to an empty selection before
padding" and "never raises". -/
theorem C6_counterexample :
    json_loads "Sure! \x7b\"top_indices\": [1, 0]\x7d" = none ∧
    extract_json "Sure! \x7b\"top_indices\": [1, 0]\x7d" =
      JVal.jobj [("top_indices", JVal.jarr [JVal.jint 1, JVal.jint 0])] ∧
    parseIdxs (topIndicesList [("top_indices", JVal.jarr [JVal.jint 1, JVal.jint 0])]) =
      Except.ok [1, 0] ∧
    node_rank [{ url := some "u" }] []
        (extract_json "x \x7b\"top_indices\": [\"\u00B2\"]\x7d y") 1 =
      Except.error "ValueError: invalid literal for int() with base 10" := by
  refine ⟨by rfl, by rfl, by rfl, by rfl⟩

/-- Concrete instance of `C6_rank_errors`: the reply `no json here`
carries no brace fragment, degrades to the empty object, and the selector
returns the padded pool prefix instead of raising. -/
theorem C6_witness :
    extract_json "no json here" = JVal.jobj [] ∧
    node_rank [{ url := some "u" }] [] (JVal.jobj []) 2 =
      Except.ok [{ url := some "u" }] := by
  constructor
  · refine C6_rank_errors.2.1 "no json here" (by rfl) ?_
    intro fragment hfrag
    rw [show braceFragment "no json here" = none from rfl] at hfrag
    exact absurd hfrag (by simp)
  · have h := C6_rank_errors.2.2.2 [{ url := some "u" }] [] 2 (by simp)
    rw [h]
    rfl

/-! ## C7 — aggregator and company-verifier failure semantics -/

theorem backendRetryGo_all_error (fetch : Nat → Except String (List Doc)) (max_results : Nat)
    (herr : ∀ a, ∃ e, fetch a = Except.error e) :
    ∀ fuel attempt got, backendRetryGo fetch max_results fuel attempt got = got := by
  intro fuel
  induction fuel with
  | zero => intro attempt got; rfl
  | succ f ih =>
    intro attempt got
    show (if got.length < max_results * 2 then
        match fetch attempt with
        | Except.ok chunk =>
          if ¬ chunk.isEmpty then got ++ chunk
          else backendRetryGo fetch max_results f (attempt + 1) got
        | Except.error _ => backendRetryGo fetch max_results f (attempt + 1) got
      else got) = got
    by_cases hlen : got.length < max_results * 2
    · rw [if_pos hlen]
      obtain ⟨e, he⟩ := herr attempt
      rw [he]
      exact ih (attempt + 1) got
    · rw [if_neg hlen]

theorem rrGo_no_buckets (buckets : List (List Doc)) (max_results : Nat)
    (h : buckets.any (fun b => ¬ b.isEmpty) = false) :
    ∀ fuel i res, rrGo buckets max_results fuel i res = res := by
  intro fuel i res
  cases fuel with
  | zero => rfl
  | succ f =>
    show (if res.length < max_results ∧ buckets.any (fun b => ¬ b.isEmpty) then
        if buckets.any (fun b => decide (i < b.length)) then
          rrGo buckets max_results f (i + 1) (rrRound i max_results buckets res)
        else res
      else res) = res
    rw [if_neg]
    intro hcon
    rw [h] at hcon
    exact absurd hcon.2 (by simp)

theorem regionBucket_all_error (fetch : String → Nat → Except String (List Doc))
    (backends : List String) (retries max_results : Nat)
    (herr : ∀ b a, ∃ e, fetch b a = Except.error e) :
    regionBucket fetch backends retries max_results = [] := by
  unfold regionBucket
  have hgen : ∀ (bs : List String) (got : List Doc),
      bs.foldl (fun got b => backendRetryGo (fetch b) max_results (retries + 1) 0 got) got = got := by
    intro bs
    induction bs with
    | nil => intro got; rfl
    | cons b rest ih =>
      intro got
      show rest.foldl _ (backendRetryGo (fetch b) max_results (retries + 1) 0 got) = got
      rw [backendRetryGo_all_error (fetch b) max_results (herr b) (retries + 1) 0 got]
      exact ih got
  exact hgen backends []

/-- C7: a total Provider Aggregator failure — client construction failing,
or every backend attempt in every region raising — is caught and yields an
empty result list instead of an exception; and in the Company Verifier a
per-entity search failure degrades to `[]` for that entity while every
declared entity still receives an entry (the run continues). -/
theorem C7_failure_semantics :
    (∀ (regions backends : List String) (retries max_results : Nat) (e : String),
      search_companies_web (Except.error e) regions backends retries max_results = []) ∧
    (∀ (fetch : String → String → Nat → Except String (List Doc))
        (regions backends : List String) (retries max_results : Nat),
      (∀ r b a, ∃ err, fetch r b a = Except.error err) →
        search_companies_web (Except.ok fetch) regions backends retries max_results = []) ∧
    (∀ (company_focus : List (String × String)) (topic : String)
        (searchOutcome : String → Except String (List Doc)),
      (node_search_companies company_focus topic searchOutcome).length = company_focus.length ∧
      ∀ (i : Nat) (hif : i < company_focus.length)
          (hir : i < (node_search_companies company_focus topic searchOutcome).length),
        ((node_search_companies company_focus topic searchOutcome)[i]).1 = (company_focus[i]).1 ∧
        ((∃ err, searchOutcome (company_focus[i]).1 = Except.error err) →
          ((node_search_companies company_focus topic searchOutcome)[i]).2 = [])) := by
  refine ⟨?_, ?_, ?_⟩
  · intro regions backends retries max_results e
    show ([] : List Doc).take max_results = []
    simp
  · intro fetch regions backends retries max_results herr
    show (roundRobin (regions.map fun reg =>
        regionBucket (fetch reg) backends retries max_results) max_results).take max_results = []
    have hbuckets : (regions.map fun reg =>
        regionBucket (fetch reg) backends retries max_results) = regions.map fun _ => [] := by
      apply List.map_congr_left
      intro reg _
      exact regionBucket_all_error (fetch reg) backends retries max_results (herr reg)
    rw [hbuckets]
    have hany : (regions.map fun _ => ([] : List Doc)).any (fun b => ¬ b.isEmpty) = false := by
      simp
    rw [roundRobin, rrGo_no_buckets _ _ hany]
    simp
  · intro focus topic outcome
    refine ⟨by simp [node_search_companies], ?_⟩
    intro i hif hir
    constructor
    · simp only [node_search_companies, List.getElem_map]
      cases houtcome : outcome (focus[i]).1 with
      | ok articles => rfl
      | error err => rfl
    · intro ⟨err, herr⟩
      simp only [node_search_companies, List.getElem_map]
      rw [herr]

/-- Concrete instance of `C7_failure_semantics`: two declared entities,
the first entity's search raising — it receives `[]` and the second entity
is still processed. -/
theorem C7_witness :
    (node_search_companies [("Acme", "desc"), ("Beta", "desc")] "topic"
        (fun nm => if nm = "Acme" then Except.error "boom" else Except.ok [])).length = 2 ∧
    ((node_search_companies [("Acme", "desc"), ("Beta", "desc")] "topic"
        (fun nm => if nm = "Acme" then Except.error "boom" else Except.ok [])).get
      ⟨0, by decide⟩).2 = [] := by
  have h := (C7_failure_semantics.2.2 [("Acme", "desc"), ("Beta", "desc")] "topic"
    (fun nm => if nm = "Acme" then Except.error "boom" else Except.ok []))
  refine ⟨h.1, ?_⟩
  have h0 := (h.2 0 (by decide) (by rw [h.1]; decide)).2
  exact h0 ⟨"boom", by rfl⟩

/-! ## C8 — reviser used-source tracking -/

theorem pyIndexOf_getD (l : List Doc) (x : Doc) (hx : x ∈ l) :
    l.getD (pyIndexOf l x) ({} : Doc) = x := by
  induction l with
  | nil => simp at hx
  | cons y t ih =>
    show (y :: t).getD (if x = y then 0 else pyIndexOf t x + 1) {} = x
    by_cases hxy : x = y
    · rw [if_pos hxy]
      exact hxy.symm
    · rw [if_neg hxy, List.getD_cons_succ]
      refine ih ?_
      rcases List.mem_cons.mp hx with h | h
      · exact absurd h hxy
      · exact h

/-- C8: assuming the pipeline invariant that the previous used-source set
is drawn from the selected pool, the reviser's bookkeeping behaves as
specified — a response without the `USED_SOURCES` marker, or whose marker
yields no valid in-range index, keeps the previous used-source set
(restricted to documents still in the selected pool), not the full pool;
a marker with valid indices `1..N` yields exactly the corresponding
selected documents. -/
theorem C8_revise_used_sources (selected used_sources : List Doc)
    (hsub : ∀ s ∈ used_sources, s ∈ selected) :
    (node_revise_used none selected used_sources =
      used_sources.filter fun s => decide (s ∈ selected)) ∧
    (∀ numbers : List Nat,
      (numbers.filter fun nn => decide (1 ≤ nn ∧ nn ≤ selected.length)) = [] →
        node_revise_used (some numbers) selected used_sources =
          used_sources.filter fun s => decide (s ∈ selected)) ∧
    (∀ numbers : List Nat,
      (numbers.filter fun nn => decide (1 ≤ nn ∧ nn ≤ selected.length)) ≠ [] →
        node_revise_used (some numbers) selected used_sources =
          (numbers.filter fun nn => decide (1 ≤ nn ∧ nn ≤ selected.length)).map
            fun nn => selected.getD (nn - 1) ({} : Doc)) := by
  have hfilter : (used_sources.filter fun s => decide (s ∈ selected)) = used_sources :=
    List.filter_eq_self.mpr (by intro a ha; simpa using hsub a ha)
  have hmapid : (used_sources.map (pyIndexOf selected)).map
      (fun i => selected.getD i ({} : Doc)) = used_sources := by
    rw [List.map_map]
    have hpt : used_sources.map ((fun i => selected.getD i ({} : Doc)) ∘ pyIndexOf selected) =
        used_sources.map id := by
      apply List.map_congr_left
      intro a ha
      exact pyIndexOf_getD selected a (hsub a ha)
    rw [hpt, List.map_id]
  refine ⟨?_, ?_, ?_⟩
  · show (if (((used_sources.filter fun s => decide (s ∈ selected)).map
        (pyIndexOf selected)).isEmpty) then used_sources
      else ((used_sources.filter fun s => decide (s ∈ selected)).map
        (pyIndexOf selected)).map fun i => selected.getD i {}) =
      used_sources.filter fun s => decide (s ∈ selected)
    rw [hfilter]
    cases used_sources with
    | nil => rfl
    | cons s t =>
      rw [if_neg (by simp)]
      exact hmapid
  · intro numbers hval
    show (if (((numbers.filter fun nn => decide (1 ≤ nn ∧ nn ≤ selected.length)).map
        (· - 1)).isEmpty) then used_sources
      else ((numbers.filter fun nn => decide (1 ≤ nn ∧ nn ≤ selected.length)).map
        (· - 1)).map fun i => selected.getD i {}) =
      used_sources.filter fun s => decide (s ∈ selected)
    rw [hval, hfilter]
    rfl
  · intro numbers hval
    show (if (((numbers.filter fun nn => decide (1 ≤ nn ∧ nn ≤ selected.length)).map
        (· - 1)).isEmpty) then used_sources
      else ((numbers.filter fun nn => decide (1 ≤ nn ∧ nn ≤ selected.length)).map
        (· - 1)).map fun i => selected.getD i {}) = _
    rw [if_neg (by simpa using hval), List.map_map]
    rfl

/-- Concrete instance of `C8_revise_used_sources`: pool of two documents,
previous used-source set `[B]`; a marker-less response keeps `[B]`, a
marker with only the out-of-range index 5 keeps `[B]`, and a marker with
the valid index 1 switches to `[A]`. -/
theorem C8_witness :
    node_revise_used none [{ url := some "a" }, { url := some "b" }] [{ url := some "b" }] =
      [{ url := some "b" }] ∧
    node_revise_used (some [5]) [{ url := some "a" }, { url := some "b" }] [{ url := some "b" }] =
      [{ url := some "b" }] ∧
    node_revise_used (some [1]) [{ url := some "a" }, { url := some "b" }] [{ url := some "b" }] =
      [{ url := some "a" }] := by
  have h := C8_revise_used_sources [{ url := some "a" }, { url := some "b" }]
    [{ url := some "b" }] (by intro s hs; simp at hs; simp [hs])
  refine ⟨?_, ?_, ?_⟩
  · rw [h.1]; rfl
  · rw [h.2.1 [5] (by rfl)]; rfl
  · rw [h.2.2 [1] (by simp)]; rfl

/-! ## C1 — rendered length vs the character budget -/

theorem ifTrunc_le (b : String) (a : Int) (ha : 0 < a) :
    ((if a < (b.length : Int) then truncate_under b a else b).length : Int) ≤ a := by
  by_cases h : a < (b.length : Int)
  · rw [if_pos h]
    exact truncate_under_length b a ha
  · rw [if_neg h]
    omega

theorem render_text_le (body : String) (urls : List String) (m : Int) (hm : 0 < m)
    (hblock : urls ≠ [] → ((sourcesBlock "text" urls).length : Int) < m) :
    ((render_text body urls m true true).length : Int) ≤ m := by
  unfold render_text
  simp only []
  by_cases hurls : urls ≠ []
  · rw [if_pos ⟨trivial, hurls⟩, if_pos trivial]
    have havail : (0 : Int) < m - (sourcesBlock "text" urls).length := by
      have := hblock hurls
      omega
    have hb := ifTrunc_le (urls.foldl (fun b u => pyRemove b u) (sanitize_plain body))
      (m - (sourcesBlock "text" urls).length) havail
    rw [String.length_append]
    push_cast
    omega
  · rw [if_neg (fun hcon => hurls hcon.2)]
    exact truncate_under_length _ m hm

theorem render_markdown_le (body : String) (urls : List String) (m : Int) (hm : 0 < m)
    (hblock : urls ≠ [] → ((sourcesBlock "markdown" urls).length : Int) < m) :
    ((render_markdown body urls m true true).length : Int) ≤ m := by
  unfold render_markdown
  simp only []
  by_cases hurls : urls ≠ []
  · rw [if_pos ⟨trivial, hurls⟩, if_pos trivial]
    have havail : (0 : Int) < m - (sourcesBlock "markdown" urls).length := by
      have := hblock hurls
      omega
    have hb := ifTrunc_le body (m - (sourcesBlock "markdown" urls).length) havail
    have hrs : ((pyRstrip (if (m - (sourcesBlock "markdown" urls).length : Int) <
        (body.length : Int) then truncate_under body (m - (sourcesBlock "markdown" urls).length)
        else body)).length : Int) ≤ m - (sourcesBlock "markdown" urls).length := by
      have := pyRstrip_length_le (if (m - (sourcesBlock "markdown" urls).length : Int) <
        (body.length : Int) then truncate_under body (m - (sourcesBlock "markdown" urls).length)
        else body)
      omega
    rw [String.length_append]
    push_cast
    omega
  · rw [if_neg (fun hcon => hurls hcon.2)]
    exact truncate_under_length _ m hm

theorem render_html_le (body : String) (urls : List String) (m : Int) (hm : 0 < m)
    (hblock : urls ≠ [] → ((sourcesBlock "html" urls).length : Int) < m) :
    ((render_html body urls m true true).length : Int) ≤ m := by
  unfold render_html
  simp only []
  by_cases hurls : urls ≠ []
  · rw [if_pos ⟨trivial, hurls⟩, if_pos trivial]
    have havail : (0 : Int) < m - (sourcesBlock "html" urls).length := by
      have := hblock hurls
      omega
    have hb := ifTrunc_le (htmlOfBody body) (m - (sourcesBlock "html" urls).length) havail
    rw [String.length_append]
    push_cast
    omega
  · rw [if_neg (fun hcon => hurls hcon.2)]
    exact truncate_under_length _ m hm

/-- C1 (amended): for every body, used-source list, output format and
positive `max_chars`, with source links counted toward the budget
(`links_in_char_limit = true`), the rendered output has length at most
`max_chars` — provided the rendered sources block (when one is appended,
i.e. when there are source URLs) is itself strictly shorter than
`max_chars`.  The proviso is necessary: the counterexample shows a
10-character budget with a 19-character sources block whose rendered
output is 25 characters long. -/
theorem C1_render_length (body : String) (docs : List Doc) (fmt : String) (m : Int)
    (hm : 0 < m)
    (hblock : urlsOf docs ≠ [] → ((sourcesBlock fmt (urlsOf docs)).length : Int) < m) :
    ((render_output body docs fmt m true true).length : Int) ≤ m := by
  unfold render_output
  simp only []
  by_cases h1 : fmt = "text"
  · subst h1
    rw [if_pos rfl]
    exact render_text_le body (urlsOf docs) m hm hblock
  · rw [if_neg h1]
    by_cases h2 : fmt = "markdown"
    · subst h2
      rw [if_pos rfl]
      exact render_markdown_le body (urlsOf docs) m hm hblock
    · rw [if_neg h2]
      by_cases h3 : fmt = "html"
      · subst h3
        rw [if_pos rfl]
        exact render_html_le body (urlsOf docs) m hm hblock
      · rw [if_neg h3]
        exact truncate_under_length _ m hm

/-- C1 counterexample: `max_chars = 10`, `links_in_char_limit = true`, one
19-character sources block — the rendered output is 25 characters long,
exceeding the budget, because the block alone exhausts it and
`truncate_under` with a non-positive budget returns the body unchanged. -/
theorem C1_counterexample :
    10 < (render_output "abcdef" [{ url := some "http://x" }] "text" 10 true true).length ∧
    10 ≤ (sourcesBlock "text" (urlsOf [{ url := some "http://x" }])).length := by
  constructor
  · decide
  · decide

/-- Concrete instance of `C1_render_length`: a short post with one source
URL under a 40-character budget stays within the budget. -/
theorem C1_witness :
    ((render_output "Hello there. More text here." [{ url := some "http://x" }]
      "text" 40 true true).length : Int) ≤ 40 :=
  C1_render_length "Hello there. More text here." [{ url := some "http://x" }] "text" 40
    (by decide) (fun _ => by decide)

/-! ## C10 — non-positive budgets and oversized sources blocks -/

/-- The format-processed body that `render_output` appends the sources
block to (specification-side description of each branch's body value on
the path where no truncation can bite). -/
def preBody (fmt : String) (body : String) (urls : List String) : String :=
  if fmt = "text" then urls.foldl (fun b u => pyRemove b u) (sanitize_plain body)
  else if fmt = "markdown" then pyRstrip body
  else htmlOfBody body

theorem ifTrunc_id (b : String) (a : Int) (ha : a ≤ 0) :
    (if a < (b.length : Int) then truncate_under b a else b) = b := by
  by_cases h : a < (b.length : Int)
  · rw [if_pos h]
    unfold truncate_under
    rw [if_pos ha]
  · rw [if_neg h]

/-- C10 (amended): `truncate_under` with a non-positive budget returns its
input completely unchanged; consequently in `render_output` with
`links_in_char_limit = true`, whenever the rendered sources block alone is
at least `max_chars` characters long, the processed body is appended
untruncated and the returned string has length at least `max_chars`
(strictly exceeding it exactly when the processed body is non-empty or the
block is longer than `max_chars`; at the boundary — empty processed body
and a block of exactly `max_chars` — the length equals `max_chars`). -/
theorem C10_links_overflow :
    (∀ (t : String) (m : Int), m ≤ 0 → truncate_under t m = t) ∧
    (∀ (body : String) (docs : List Doc) (fmt : String) (m : Int),
      fmt = "text" ∨ fmt = "markdown" ∨ fmt = "html" →
      urlsOf docs ≠ [] →
      (m : Int) ≤ ((sourcesBlock fmt (urlsOf docs)).length : Int) →
        render_output body docs fmt m true true =
          preBody fmt body (urlsOf docs) ++ sourcesBlock fmt (urlsOf docs) ∧
        (m : Int) ≤ ((render_output body docs fmt m true true).length : Int)) := by
  have htrunc : ∀ (t : String) (m : Int), m ≤ 0 → truncate_under t m = t := by
    intro t m hm
    unfold truncate_under
    rw [if_pos hm]
  refine ⟨htrunc, ?_⟩
  intro body docs fmt m hfmt hurls hblock
  have havail : m - ((sourcesBlock fmt (urlsOf docs)).length : Int) ≤ 0 := by omega
  have heq : render_output body docs fmt m true true =
      preBody fmt body (urlsOf docs) ++ sourcesBlock fmt (urlsOf docs) := by
    rcases hfmt with hf | hf | hf
    · subst hf
      unfold render_output render_text preBody
      simp only [if_true]
      rw [if_pos ⟨trivial, hurls⟩, ifTrunc_id _ _ havail]
    · subst hf
      unfold render_output render_markdown preBody
      simp only [if_true]
      rw [if_neg (by decide), if_pos ⟨trivial, hurls⟩, ifTrunc_id _ _ havail,
        if_neg (by decide)]
    · subst hf
      unfold render_output render_html preBody
      simp only [if_true]
      rw [if_neg (by decide), if_neg (by decide), if_pos ⟨trivial, hurls⟩,
        ifTrunc_id _ _ havail, if_neg (by decide), if_neg (by decide)]
  refine ⟨heq, ?_⟩
  rw [heq, String.length_append]
  push_cast
  omega

/-- C10 counterexample to the claim's "exceeds": with an empty body and a
sources block of exactly `max_chars = 13` characters, the returned string
has length exactly 13 — at least, but not more than, `max_chars`. -/
theorem C10_counterexample :
    13 ≤ (sourcesBlock "text" (urlsOf [{ url := some "ab" }])).length ∧
    (render_output "" [{ url := some "ab" }] "text" 13 true true).length = 13 ∧
    ¬ 13 < (render_output "" [{ url := some "ab" }] "text" 13 true true).length := by
  refine ⟨by decide, by decide, by decide⟩

/-- Concrete instance of `C10_links_overflow`: a 13-character sources
block under a 13-character budget — the one-character body is appended
untruncated and the total reaches the budget's length and beyond. -/
theorem C10_witness :
    render_output "x" [{ url := some "ab" }] "text" 13 true true =
      preBody "text" "x" (urlsOf [{ url := some "ab" }]) ++
        sourcesBlock "text" (urlsOf [{ url := some "ab" }]) ∧
    (13 : Int) ≤ ((render_output "x" [{ url := some "ab" }] "text" 13 true true).length : Int) :=
  C10_links_overflow.2 "x" [{ url := some "ab" }] "text" 13 (Or.inl rfl) (by decide) (by decide)

end PostGenerator
